import Mathlib

/-!
Verification development for the raiment-ui repository
(src/source/cmd/fallgray): the line-oriented scripting interpreter
(src/source/cmd/fallgray/src/scripting/script.rs and
src/source/cmd/fallgray/src/scripting/process_script.rs) and the
tile-based collision map built in src/source/cmd/fallgray/src/main.rs.

Strings are modelled as lists of characters (`Str`), Rust `f32` values as
rationals (exact arithmetic; IEEE rounding is not modelled — every numeric
literal exercised below is exactly representable), and Rust `i32` values as
integers with explicit two's-complement wraparound where the code can
overflow (`parse::<i32>` keeps literals inside the i32 range, and the
gold addition wraps modulo 2 to the 32nd as Rust release builds do;
debug builds panic on overflow instead, which has no pure counterpart).
Whitespace classification models `char::is_whitespace` on the ASCII
fragment, which covers every script the claims quantify over in spirit and
every concrete script exercised here.
-/

set_option maxRecDepth 8192

/-- Shorthand: a Rust string modelled as its list of characters. -/
abbrev Str := List Char

/-- Convert a Lean string literal to the character-list model. -/
def str (s : String) : Str := s.toList

/-- ASCII fragment of Rust `char::is_whitespace` (space, tab, newline,
carriage return, vertical tab, form feed). -/
def isWs (c : Char) : Bool :=
  c = ' ' || c = '\t' || c = '\n' || c = '\r' ||
  c = Char.ofNat 11 || c = Char.ofNat 12

/-- Drop leading whitespace characters (one side of Rust `str::trim`). -/
def trimLeft : Str → Str
  | [] => []
  | c :: cs => if isWs c then trimLeft cs else c :: cs

/-- Rust `str::trim`: drop leading and trailing whitespace (trailing via
a pass over the reversed string, then leading). -/
def trim (s : Str) : Str :=
  trimLeft (trimLeft s.reverse).reverse

/-- Accumulator pass for `splitWs`; `acc` holds the reversed current word. -/
def splitWsAux : Str → Str → List Str
  | [], acc => if acc = [] then [] else [acc.reverse]
  | c :: cs, acc =>
    if isWs c then
      if acc = [] then splitWsAux cs [] else acc.reverse :: splitWsAux cs []
    else splitWsAux cs (c :: acc)

/-- Rust `str::split_whitespace`: the whitespace-separated words of a
string, with no empty words. -/
def splitWs (s : Str) : List Str := splitWsAux s []

/-- Split a character list at newline characters; the result is always
non-empty (an empty input gives one empty piece). -/
def splitOnNl : Str → List Str
  | [] => [[]]
  | c :: cs =>
    if c = '\n' then [] :: splitOnNl cs
    else
      match splitOnNl cs with
      | [] => [[c]]
      | w :: ws => (c :: w) :: ws

/-- Drop one trailing carriage return, as Rust `str::lines` does. -/
def stripCr (l : Str) : Str :=
  if l.getLast? = some '\r' then l.dropLast else l

/-- Rust `str::lines`: split on newline, with the final line ending
optional, and a trailing carriage return removed from each line. -/
def scriptLines (s : Str) : List Str :=
  let parts := splitOnNl s
  let parts := if parts.getLast? = some [] then parts.dropLast else parts
  parts.map stripCr

/-- A trimmed line is skipped as a comment when it starts with the
character '#' or with the two characters "//" (script.rs lines 124-127,
process_script.rs lines 36-39). -/
def isCommentLine : Str → Bool
  | '#' :: _ => true
  | '/' :: '/' :: _ => true
  | _ => false

/-- A source line is executed when its trimmed form is non-empty and is
not a comment line; such lines reach the command dispatch. -/
def executedLine (l : Str) : Bool :=
  !(trim l).isEmpty && !isCommentLine (trim l)

/-- The executed lines of a script, in source order. -/
def executedLines (s : Str) : List Str :=
  (scriptLines s).filter executedLine

/-- Rust `tokens.join(" ")`: rejoin tokens with single spaces. -/
def joinSpaces (ts : List Str) : Str := List.intercalate [' '] ts

/-- Rust `char::is_ascii_digit`. -/
def isDigit (c : Char) : Bool := '0' ≤ c && c ≤ '9'

/-- Accumulate the value of a run of decimal digit characters. -/
def digitsVal : Str → ℕ → ℕ
  | [], acc => acc
  | c :: cs, acc => digitsVal cs (acc * 10 + (c.toNat - '0'.toNat))

/-- Parse a non-empty all-digit string to its value. -/
def parseDigits (s : Str) : Option ℕ :=
  if s ≠ [] ∧ s.all isDigit then some (digitsVal s 0) else none

/-- Rust `str::parse::<i32>`: an optional sign followed by decimal digits,
rejected when the value falls outside the i32 range. -/
def parseI32 (s : Str) : Option ℤ :=
  match s with
  | '+' :: rest =>
    (parseDigits rest).bind fun n =>
      if (n : ℤ) ≤ 2147483647 then some (n : ℤ) else none
  | '-' :: rest =>
    (parseDigits rest).bind fun n =>
      if (n : ℤ) ≤ 2147483648 then some (-(n : ℤ)) else none
  | _ =>
    (parseDigits s).bind fun n =>
      if (n : ℤ) ≤ 2147483647 then some (n : ℤ) else none

/-- Longest digit run at the front of a string, and the remainder. -/
def spanDigits : Str → Str × Str
  | [] => ([], [])
  | c :: cs =>
    if isDigit c then
      let (d, r) := spanDigits cs
      (c :: d, r)
    else ([], c :: cs)

/-- Value of an integer part together with a fractional digit run. -/
def mantissaVal (ip fp : Str) : ℚ :=
  (digitsVal ip 0 : ℚ) + (digitsVal fp 0 : ℚ) / (((10 : ℕ) ^ fp.length : ℕ) : ℚ)

/-- Parse the digits-dot-digits mantissa of a float literal, returning its
exact rational value and the unconsumed remainder; at least one digit must
be present. -/
def parseMantissa (s : Str) : Option (ℚ × Str) :=
  let (ip, rest) := spanDigits s
  match rest with
  | '.' :: rest2 =>
    let (fp, rest3) := spanDigits rest2
    if ip = [] ∧ fp = [] then none else some (mantissaVal ip fp, rest3)
  | _ => if ip = [] then none else some ((digitsVal ip 0 : ℚ), rest)

/-- Parse the exponent part that may follow the mantissa: an 'e' or 'E',
an optional sign and a non-empty digit run consuming the whole remainder. -/
def parseExpPart : Str → Option ℤ
  | [] => some 0
  | 'e' :: t => parseSignedDigits t
  | 'E' :: t => parseSignedDigits t
  | _ => none
where
  parseSignedDigits : Str → Option ℤ
    | '+' :: d => (parseDigits d).map (fun n => (n : ℤ))
    | '-' :: d => (parseDigits d).map (fun n => -(n : ℤ))
    | d => (parseDigits d).map (fun n => (n : ℤ))

/-- Rust `str::parse::<f32>` modelled exactly over the rationals: an
optional sign, a mantissa with at least one digit, and an optional
exponent. IEEE-754 rounding of the resulting value is not modelled, nor
are the special forms inf, infinity and NaN, which have no rational
counterpart; no claim exercises either aspect. -/
def parseF32 (s : Str) : Option ℚ :=
  match s with
  | '+' :: rest => parseF32body rest
  | '-' :: rest => (parseF32body rest).map Neg.neg
  | _ => parseF32body s
where
  scaleByExp (m : ℚ) (e : ℤ) : ℚ :=
    if 0 ≤ e then m * (((10 : ℕ) ^ e.toNat : ℕ) : ℚ)
    else m / (((10 : ℕ) ^ (-e).toNat : ℕ) : ℚ)
  parseF32body (t : Str) : Option ℚ :=
    (parseMantissa t).bind fun p =>
      (parseExpPart p.2).map fun e => scaleByExp p.1 e

/-- Decimal digits of the proper fraction n/d (n < d), with enough fuel to
cover every terminating expansion exercised here. -/
def fracDigits : ℕ → ℕ → ℕ → Str
  | 0, _, _ => []
  | _ + 1, 0, _ => []
  | fuel + 1, n, d =>
    let n10 := n * 10
    Char.ofNat ('0'.toNat + n10 / d) :: fracDigits fuel (n10 % d) d

/-- Rust `Display` for `f32` (shortest round-tripping decimal), modelled
on exact rationals: an integral value prints with no decimal point, any
other value prints its terminating decimal expansion. Exact for every
value the interpreter's claims exercise. -/
def formatQ (q : ℚ) : Str :=
  if q.den = 1 then (toString q.num).toList
  else
    (if q.num < 0 then ['-'] else []) ++
    (toString (q.num.natAbs / q.den)).toList ++
    '.' :: fracDigits 64 (q.num.natAbs % q.den) q.den

/-- Rust `Display` for `i32`. -/
def intStr (n : ℤ) : Str := (toString n).toList

/-- Rust `Display` for `usize`. -/
def natStr (n : ℕ) : Str := (toString n).toList

/-- The player-visible stats resource (src/source/cmd/fallgray/src/ui.rs
lines 7-11): health and stamina are f32 (modelled as rationals), gold is
an i32 (modelled as an integer). -/
structure PlayerStats where
  health : ℚ
  stamina : ℚ
  gold : ℤ
deriving DecidableEq

/-- The `Default` impl for PlayerStats (ui.rs lines 13-20). -/
def defaultStats : PlayerStats := { health := 100, stamina := 50, gold := 0 }

/-- Modelled from the spec: `CVarValue` lives in the cvars module
(src/source/cmd/fallgray/src/cvars.rs and
src/source/cmd/fallgray/src/scripting/cvars.rs), which is not under src/;
the spec describes a tagged union of Float and Int. -/
inductive CVarValue where
  | Float (value : ℚ)
  | Int (value : ℤ)
deriving DecidableEq

/-- Modelled from the spec: the console-variable registry is a mapping
from name to value; its source file is not under src/. The mapping is
modelled as an association list with first-match lookup. -/
abbrev CVarRegistry := List (Str × CVarValue)

/-- Look a variable up by name (the registry's `get`). -/
def cvarsGet (cv : CVarRegistry) (name : Str) : Option CVarValue :=
  (cv.find? (fun p => p.1 = name)).map (·.2)

/-- Whether two values carry the same tag (Float/Int). -/
def sameKind : CVarValue → CVarValue → Bool
  | CVarValue.Float _, CVarValue.Float _ => true
  | CVarValue.Int _, CVarValue.Int _ => true
  | _, _ => false

/-- Modelled from the spec: the registry's `set` fails if the name is
absent or the new value's type mismatches the stored one, and otherwise
updates in place. The exact error strings are not under src/; no claim
inspects them. -/
def cvarsSet (cv : CVarRegistry) (name : Str) (v : CVarValue) :
    Except Str CVarRegistry :=
  match cvarsGet cv name with
  | none => Except.error (str "Variable not found: " ++ name)
  | some old =>
    if sameKind old v then
      Except.ok (cv.map (fun p => if p.1 = name then (p.1, v) else p))
    else Except.error (str "Type mismatch: " ++ name)

/-- Modelled from the spec: the `Display` form of a stored value (its
default textual form), used by getvar and listvars. -/
def displayCVar : CVarValue → Str
  | CVarValue.Float q => formatQ q
  | CVarValue.Int n => intStr n

/-- An actor, the optional context of the do_damage command; its source
file (src/source/cmd/fallgray/src/actor.rs) is not under src/. Only the
field needed to state that do_damage mutates it is modelled. -/
structure Actor where
  health : ℚ
deriving DecidableEq

/-- Handler result: the output string and the updated stats/registry,
mirroring the Rust handlers' `String` return plus `&mut` effects. -/
abbrev CmdOut := Str × PlayerStats × CVarRegistry

/-- cmd_setvar (script.rs lines 9-30). -/
def cmd_setvar (tokens : List Str) (stats : PlayerStats)
    (cvars : CVarRegistry) : CmdOut :=
  if tokens.length < 3 then (str "usage: setvar <variable> <value>", stats, cvars)
  else
    let var_name := tokens.getD 1 []
    let value_str := tokens.getD 2 []
    match parseF32 value_str with
    | none => (str "Invalid value: " ++ value_str, stats, cvars)
    | some value =>
      match cvarsSet cvars var_name (CVarValue.Float value) with
      | Except.ok cvars2 => (var_name ++ str " = " ++ formatQ value, stats, cvars2)
      | Except.error e => (e, stats, cvars)

/-- cmd_getvar (script.rs lines 33-48). -/
def cmd_getvar (tokens : List Str) (stats : PlayerStats)
    (cvars : CVarRegistry) : CmdOut :=
  if tokens.length < 2 then (str "usage: getvar <variable>", stats, cvars)
  else
    let var_name := tokens.getD 1 []
    match cvarsGet cvars var_name with
    | some value => (displayCVar value, stats, cvars)
    | none => (str "Variable not found: " ++ var_name, stats, cvars)

/-- cmd_listvars (script.rs lines 51-67); the registry's list order is
the association list's order (the Rust HashMap's iteration order is
arbitrary; no claim inspects this output). -/
def cmd_listvars (_tokens : List Str) (stats : PlayerStats)
    (cvars : CVarRegistry) : CmdOut :=
  if cvars.isEmpty then (str "No variables defined", stats, cvars)
  else
    let header := natStr cvars.length ++ str " variables:"
    (cvars.foldl
      (fun acc p => acc ++ str "\n  " ++ p.1 ++ str " = " ++ displayCVar p.2)
      header, stats, cvars)

/-- Two's-complement wraparound into the i32 range: the result Rust
release builds give an overflowing i32 addition (debug builds panic
instead). Identity on values already in the i32 range. -/
def wrapI32 (n : ℤ) : ℤ := (n + 2147483648) % 4294967296 - 2147483648

/-- cmd_add_gold (script.rs lines 69-84): `stats.gold += amount` on the
i32 field gold (ui.rs line 10), so the sum wraps when it leaves the i32
range. -/
def cmd_add_gold (tokens : List Str) (stats : PlayerStats)
    (cvars : CVarRegistry) : CmdOut :=
  if tokens.length < 2 then (str "usage: add_gold <amount>", stats, cvars)
  else
    match parseI32 (tokens.getD 1 []) with
    | none => (str "Invalid gold amount: " ++ tokens.getD 1 [], stats, cvars)
    | some amount =>
      let g := wrapI32 (stats.gold + amount)
      (str "Added " ++ intStr amount ++ str " gold, new value: " ++ intStr g,
       { stats with gold := g }, cvars)

/-- cmd_add_stamina (script.rs lines 86-101): adds and clamps only at the
upper bound 100; `f32::min(_, 100.0)` is written as the equivalent
conditional so the kernel can evaluate it. -/
def cmd_add_stamina (tokens : List Str) (stats : PlayerStats)
    (cvars : CVarRegistry) : CmdOut :=
  if tokens.length < 2 then (str "usage: add_stamina <amount>", stats, cvars)
  else
    match parseF32 (tokens.getD 1 []) with
    | none => (str "Invalid stamina amount: " ++ tokens.getD 1 [], stats, cvars)
    | some amount =>
      let s := if stats.stamina + amount ≤ 100 then stats.stamina + amount else 100
      (str "Added " ++ formatQ amount ++ str " stamina, new value: " ++ formatQ s,
       { stats with stamina := s }, cvars)

/-- Modelled from the spec: cmd_savecvars
(src/source/cmd/fallgray/src/scripting/cmd_savecvars.rs) is not under
src/; the spec says it persists the registry to a configuration file and
reports I/O failure non-fatally. The file write has no effect on the
in-memory state; the message text is a placeholder no claim inspects. -/
def cmd_savecvars (_tokens : List Str) (stats : PlayerStats)
    (cvars : CVarRegistry) : CmdOut :=
  (str "CVars saved", stats, cvars)

/-- Modelled from the spec: cmd_do_damage
(src/source/cmd/fallgray/src/scripting/cmd_do_damage.rs) is not under
src/; the spec says only that it applies damage to the supplied actor.
The amount and message are placeholders; no claim exercises this
command (C10 excludes it and passes no actor). -/
def cmd_do_damage (_tokens : List Str) (a : Actor) : Str × Actor :=
  (str "Applied damage", { a with health := a.health - 10 })

/-- Result of dispatching one executed line: either an output string with
the updated state, or process termination (cmd_quit, script.rs lines
103-110, calls std::process::exit and never returns). -/
inductive CmdResult where
  | out (msg : Str) (stats : PlayerStats) (cvars : CVarRegistry)
  | exitProcess
deriving DecidableEq

/-- Wrap a handler's result as a non-terminating dispatch outcome. -/
def outOf : CmdOut → CmdResult
  | (o, s, c) => CmdResult.out o s c

/-- The command dispatch of script.rs `process_script` (lines 135-143):
match on token 0 over the six command names, with unknown tokens rejoined
into an error message. -/
def dispatchScript (t0 : Str) (tokens : List Str) (stats : PlayerStats)
    (cvars : CVarRegistry) : CmdResult :=
  if t0 = str "setvar" then outOf (cmd_setvar tokens stats cvars)
  else if t0 = str "getvar" then outOf (cmd_getvar tokens stats cvars)
  else if t0 = str "listvars" then outOf (cmd_listvars tokens stats cvars)
  else if t0 = str "add_gold" then outOf (cmd_add_gold tokens stats cvars)
  else if t0 = str "add_stamina" then outOf (cmd_add_stamina tokens stats cvars)
  else if t0 = str "quit" then CmdResult.exitProcess
  else CmdResult.out (str "Unknown command: " ++ joinSpaces tokens) stats cvars

/-- The observable result of a `process_script` run: the returned output
vector and final state, plus a flag recording that cmd_quit terminated
the process (in which case nothing is returned to the caller and the
remaining lines never run). -/
structure RunResult where
  outputs : List Str
  stats : PlayerStats
  cvars : CVarRegistry
  quit : Bool
deriving DecidableEq

/-- The line loop of script.rs `process_script` (lines 117-146): trim,
skip blank and comment lines, tokenize, skip when there are no tokens,
dispatch, and push the command output. -/
def processLines : List Str → PlayerStats → CVarRegistry → RunResult
  | [], stats, cvars => ⟨[], stats, cvars, false⟩
  | line :: rest, stats, cvars =>
    let trimmed := trim line
    if trimmed.isEmpty then processLines rest stats cvars
    else if isCommentLine trimmed then processLines rest stats cvars
    else
      match splitWs trimmed with
      | [] => processLines rest stats cvars
      | t0 :: ts =>
        match dispatchScript t0 (t0 :: ts) stats cvars with
        | CmdResult.out o stats2 cvars2 =>
          let r := processLines rest stats2 cvars2
          ⟨o :: r.outputs, r.stats, r.cvars, r.quit⟩
        | CmdResult.exitProcess => ⟨[], stats, cvars, true⟩

/-- process_script (script.rs lines 112-149): run the line loop over the
script's lines. -/
def process_script (s : Str) (stats : PlayerStats) (cvars : CVarRegistry) :
    RunResult :=
  processLines (scriptLines s) stats cvars

/-- Reference interpreter for claim C1: execute a given list of lines
unconditionally, one output per line, with no skip logic. -/
def execList : List Str → PlayerStats → CVarRegistry → RunResult
  | [], stats, cvars => ⟨[], stats, cvars, false⟩
  | l :: ls, stats, cvars =>
    match splitWs (trim l) with
    | [] => execList ls stats cvars
    | t0 :: ts =>
      match dispatchScript t0 (t0 :: ts) stats cvars with
      | CmdResult.out o stats2 cvars2 =>
        let r := execList ls stats2 cvars2
        ⟨o :: r.outputs, r.stats, r.cvars, r.quit⟩
      | CmdResult.exitProcess => ⟨[], stats, cvars, true⟩

/-- Result of dispatching one line in the actor-threading variant
(process_script.rs): output plus updated state including the optional
actor, or process termination. -/
inductive CmdResultA where
  | out (msg : Str) (stats : PlayerStats) (cvars : CVarRegistry)
        (actor : Option Actor)
  | exitProcess
deriving DecidableEq

/-- Wrap a handler's result as a non-terminating dispatch outcome with
the actor unchanged. -/
def outOfA : CmdOut → Option Actor → CmdResultA
  | (o, s, c), actor => CmdResultA.out o s c actor

/-- The command dispatch of process_script.rs `process_script_with_actor`
(lines 47-63): the same six commands as script.rs plus savecvars and
do_damage, the latter requiring the actor context. The shared handler
bodies live in per-command files that are not under src/; they are
modelled from the spec, whose single command table (spec section 4.2)
describes both dispatchers, as the same functions used by script.rs. -/
def dispatchActor (t0 : Str) (tokens : List Str) (stats : PlayerStats)
    (cvars : CVarRegistry) (actor : Option Actor) : CmdResultA :=
  if t0 = str "setvar" then outOfA (cmd_setvar tokens stats cvars) actor
  else if t0 = str "getvar" then outOfA (cmd_getvar tokens stats cvars) actor
  else if t0 = str "listvars" then outOfA (cmd_listvars tokens stats cvars) actor
  else if t0 = str "savecvars" then outOfA (cmd_savecvars tokens stats cvars) actor
  else if t0 = str "add_gold" then outOfA (cmd_add_gold tokens stats cvars) actor
  else if t0 = str "add_stamina" then outOfA (cmd_add_stamina tokens stats cvars) actor
  else if t0 = str "quit" then CmdResultA.exitProcess
  else if t0 = str "do_damage" then
    match actor with
    | some a =>
      let (o, a2) := cmd_do_damage tokens a
      CmdResultA.out o stats cvars (some a2)
    | none =>
      CmdResultA.out (str "do_damage can only be used on actors") stats cvars none
  else CmdResultA.out (str "Unknown command: " ++ joinSpaces tokens) stats cvars actor

/-- The observable result of a `process_script_with_actor` run. -/
structure RunResultA where
  outputs : List Str
  stats : PlayerStats
  cvars : CVarRegistry
  actor : Option Actor
  quit : Bool
deriving DecidableEq

/-- The line loop of process_script.rs `process_script_with_actor`
(lines 29-68): identical trim/skip/tokenize logic, with the actor
threaded through the dispatch. -/
def processLinesActor : List Str → PlayerStats → CVarRegistry →
    Option Actor → RunResultA
  | [], stats, cvars, actor => ⟨[], stats, cvars, actor, false⟩
  | line :: rest, stats, cvars, actor =>
    let trimmed := trim line
    if trimmed.isEmpty then processLinesActor rest stats cvars actor
    else if isCommentLine trimmed then processLinesActor rest stats cvars actor
    else
      match splitWs trimmed with
      | [] => processLinesActor rest stats cvars actor
      | t0 :: ts =>
        match dispatchActor t0 (t0 :: ts) stats cvars actor with
        | CmdResultA.out o stats2 cvars2 actor2 =>
          let r := processLinesActor rest stats2 cvars2 actor2
          ⟨o :: r.outputs, r.stats, r.cvars, r.actor, r.quit⟩
        | CmdResultA.exitProcess => ⟨[], stats, cvars, actor, true⟩

/-- process_script_with_actor (process_script.rs lines 23-69). -/
def process_script_with_actor (s : Str) (stats : PlayerStats)
    (cvars : CVarRegistry) (actor : Option Actor) : RunResultA :=
  processLinesActor (scriptLines s) stats cvars actor

/-- Whether a map character is a wall glyph: 'X' (tall wall) or 'x'
(short wall), both treated identically for collision (main.rs line 316). -/
def isSolidChar (ch : Char) : Bool := ch = 'X' || ch = 'x'

/-- The collision grid: a mapping from (column, row) cell keys to a flag,
modelled as an association list with first-match lookup standing in for
the Rust HashMap (every key is inserted at most once during
construction). -/
abbrev Grid := List ((ℤ × ℤ) × Bool)

/-- Look up a cell key in the grid. -/
def lookupGrid (g : Grid) (k : ℤ × ℤ) : Option Bool :=
  (g.find? (fun p => p.1 = k)).map (·.2)

/-- The inner loop of the collision-map construction (main.rs lines
313-319): walk one row's characters with their column indices, inserting
`true` at each wall glyph. -/
def markRow (rowIdx : ℤ) : ℤ → Str → Grid → Grid
  | _, [], g => g
  | colIdx, ch :: cs, g =>
    markRow rowIdx (colIdx + 1) cs
      (if isSolidChar ch then ((colIdx, rowIdx), true) :: g else g)

/-- The outer loop of the collision-map construction: rows with their
indices. -/
def markRows : ℤ → List Str → Grid → Grid
  | _, [], g => g
  | rowIdx, l :: ls, g => markRows (rowIdx + 1) ls (markRow rowIdx 0 l g)

/-- Build the collision grid from the level rows (main.rs lines 297,
313-319). -/
def buildCollisionGrid (lines : List Str) : Grid :=
  markRows 0 lines []

/-- The maximum row length, Rust
`lines.iter().map(l.len()).max().unwrap_or(0)` (main.rs line 295). -/
def maxRowLen (lines : List Str) : ℕ :=
  ((lines.map List.length).max?).getD 0

/-- The collision map resource: the occupied-cell mapping and the nominal
grid extents (main.rs lines 293-297, 359). `CollisionMap::new` lives in
the collision module, which is not under src/; modelled from the spec as
the plain constructor storing its three arguments. -/
structure CollisionMap where
  occupied : Grid
  width : ℕ
  height : ℕ

/-- Build the full collision map from the level rows, as startup_system
does (main.rs lines 293-359): height is the row count, width the maximum
row length, and the grid marks every wall glyph's cell. -/
def buildCollisionMap (lines : List Str) : CollisionMap :=
  { occupied := buildCollisionGrid lines
    width := maxRowLen lines
    height := lines.length }

/-- Modelled from the spec: whether a cell is occupied — absent entries
are free (spec section 3: the mapping is sparse and lookups are
unbounded). -/
def CollisionMap.occupiedAt (m : CollisionMap) (c r : ℤ) : Bool :=
  (lookupGrid m.occupied (c, r)).getD false

/-- The inclusive integer range from a to b as a list. -/
def intRange (a b : ℤ) : List ℤ :=
  (List.range (b + 1 - a).toNat).map (fun (i : ℕ) => a + (i : ℤ))

/-- Clamp a value into the interval lo..hi (the closest point of the
interval to v). -/
def clampQ (v lo hi : ℚ) : ℚ := if v < lo then lo else if hi < v then hi else v

/-- Modelled from the spec: `CollisionMap::can_move_to`
(src/source/cmd/fallgray/src/collision.rs) is not under src/. Spec
section 4.1: floor-divide x minus/plus radius by the cell size 8 to get
the column range, identically for y; for every occupied cell in the
cross product, reject when the closest point of the cell to the disc
center lies strictly closer than the radius (compared here on squared
distances, which is equivalent for a nonnegative radius); accept when no
occupied cell overlaps. -/
def CollisionMap.can_move_to (m : CollisionMap) (x y radius : ℚ) : Bool :=
  let c0 := ⌊(x - radius) / 8⌋
  let c1 := ⌊(x + radius) / 8⌋
  let r0 := ⌊(y - radius) / 8⌋
  let r1 := ⌊(y + radius) / 8⌋
  (intRange c0 c1).all fun c =>
    (intRange r0 r1).all fun r =>
      if m.occupiedAt c r then
        let px := clampQ x (8 * (c : ℚ)) (8 * ((c : ℚ) + 1))
        let py := clampQ y (8 * (r : ℚ)) (8 * ((r : ℚ) + 1))
        if (x - px) ^ 2 + (y - py) ^ 2 < radius ^ 2 then false else true
      else true

/-! Helper lemmas about trimming and tokenization. -/

/-- The first token of a line, as the dispatch sees it. -/
def firstToken (l : Str) : Str := (splitWs (trim l)).headD []

/-- The six command names of the script.rs dispatch. -/
def commandNames : List Str :=
  [str "setvar", str "getvar", str "listvars",
   str "add_gold", str "add_stamina", str "quit"]

/-- No executed line of the script starts with the quit command. -/
def noQuit (s : Str) : Bool :=
  (executedLines s).all fun l => firstToken l != str "quit"

theorem trimLeft_head (s : Str) :
    trimLeft s = [] ∨ ∃ c cs, trimLeft s = c :: cs ∧ isWs c = false := by
  induction s with
  | nil => exact Or.inl rfl
  | cons c cs ih =>
    by_cases h : isWs c = true
    · simpa [trimLeft, h] using ih
    · exact Or.inr ⟨c, cs, by simp [trimLeft, h], by simpa using h⟩

theorem trim_head (l : Str) (h : trim l ≠ []) :
    ∃ c cs, trim l = c :: cs ∧ isWs c = false := by
  rcases trimLeft_head (trimLeft l.reverse).reverse with h1 | h1
  · exact absurd h1 h
  · exact h1

theorem splitWsAux_ne_nil (s : Str) : ∀ acc : Str, acc ≠ [] →
    splitWsAux s acc ≠ [] := by
  induction s with
  | nil => intro acc h; simp [splitWsAux, h]
  | cons c cs ih =>
    intro acc h
    by_cases hc : isWs c = true
    · simp [splitWsAux, hc, h]
    · rw [splitWsAux, if_neg (by simp [hc])]
      exact ih (c :: acc) (by simp)

theorem splitWs_trim_ne_nil (l : Str) (h : (trim l).isEmpty = false) :
    splitWs (trim l) ≠ [] := by
  have h' : trim l ≠ [] := by simpa [List.isEmpty_iff] using h
  obtain ⟨c, cs, he, hc⟩ := trim_head l h'
  rw [splitWs, he, splitWsAux, if_neg (by simp [hc])]
  exact splitWsAux_ne_nil cs [c] (by simp)

theorem executedLine_iff (l : Str) :
    executedLine l = true ↔
      (trim l).isEmpty = false ∧ isCommentLine (trim l) = false := by
  rw [executedLine]
  cases (trim l).isEmpty <;> cases isCommentLine (trim l) <;> simp

theorem outOf_out {x : CmdOut} {o : Str} {st2 : PlayerStats}
    {cv2 : CVarRegistry} (h : outOf x = CmdResult.out o st2 cv2) :
    x = (o, st2, cv2) := by
  obtain ⟨a, b, c⟩ := x
  cases h
  rfl

theorem outOf_ne_exit (x : CmdOut) : outOf x ≠ CmdResult.exitProcess := by
  obtain ⟨a, b, c⟩ := x
  simp [outOf]

theorem dispatchScript_exit_iff (t0 : Str) (tokens : List Str)
    (st : PlayerStats) (cv : CVarRegistry) :
    dispatchScript t0 tokens st cv = CmdResult.exitProcess ↔
      t0 = str "quit" := by
  unfold dispatchScript
  split
  · next h => simp [outOf_ne_exit, h, str]
  · split
    · next h => simp [outOf_ne_exit, h, str]
    · split
      · next h => simp [outOf_ne_exit, h, str]
      · split
        · next h => simp [outOf_ne_exit, h, str]
        · split
          · next h => simp [outOf_ne_exit, h, str]
          · split
            · next h => simp [h]
            · next h => simp [h]

theorem processLines_skip (l : Str) (ls : List Str) (st : PlayerStats)
    (cv : CVarRegistry) (h : executedLine l = false) :
    processLines (l :: ls) st cv = processLines ls st cv := by
  rw [executedLine] at h
  by_cases h1 : (trim l).isEmpty = true
  · simp [processLines, h1]
  · have h2 : isCommentLine (trim l) = true := by
      cases hE : (trim l).isEmpty <;> cases hC : isCommentLine (trim l) <;>
        simp_all
    simp [processLines, h1, h2]

theorem processLines_cons_exec (l : Str) (ls : List Str) (st : PlayerStats)
    (cv : CVarRegistry) (t0 : Str) (ts : List Str)
    (h1 : (trim l).isEmpty = false) (h2 : isCommentLine (trim l) = false)
    (hsp : splitWs (trim l) = t0 :: ts) :
    processLines (l :: ls) st cv =
      match dispatchScript t0 (t0 :: ts) st cv with
      | CmdResult.out o st2 cv2 =>
        let r := processLines ls st2 cv2
        ⟨o :: r.outputs, r.stats, r.cvars, r.quit⟩
      | CmdResult.exitProcess => ⟨[], st, cv, true⟩ := by
  simp only [processLines, h1, h2, hsp, Bool.false_eq_true, if_false]

theorem execList_cons (l : Str) (ls : List Str) (st : PlayerStats)
    (cv : CVarRegistry) (t0 : Str) (ts : List Str)
    (hsp : splitWs (trim l) = t0 :: ts) :
    execList (l :: ls) st cv =
      match dispatchScript t0 (t0 :: ts) st cv with
      | CmdResult.out o st2 cv2 =>
        let r := execList ls st2 cv2
        ⟨o :: r.outputs, r.stats, r.cvars, r.quit⟩
      | CmdResult.exitProcess => ⟨[], st, cv, true⟩ := by
  simp only [execList, hsp]

theorem processLines_eq_execList (ls : List Str) (st : PlayerStats)
    (cv : CVarRegistry) :
    processLines ls st cv = execList (ls.filter executedLine) st cv := by
  induction ls generalizing st cv with
  | nil => rfl
  | cons l ls ih =>
    cases hE : executedLine l with
    | false =>
      rw [processLines_skip l ls st cv hE, List.filter_cons_of_neg (by simp [hE]),
        ih st cv]
    | true =>
      obtain ⟨h1, h2⟩ := (executedLine_iff l).mp hE
      obtain ⟨t0, ts, hsp⟩ : ∃ t0 ts, splitWs (trim l) = t0 :: ts := by
        rcases hx : splitWs (trim l) with _ | ⟨t0, ts⟩
        · exact absurd hx (splitWs_trim_ne_nil l h1)
        · exact ⟨t0, ts, rfl⟩
      rw [List.filter_cons_of_pos (by simp [hE]),
        processLines_cons_exec l ls st cv t0 ts h1 h2 hsp,
        execList_cons l (ls.filter executedLine) st cv t0 ts hsp]
      cases hd : dispatchScript t0 (t0 :: ts) st cv with
      | out o st2 cv2 => simp only [ih st2 cv2]
      | exitProcess => rfl

theorem execList_length (ls : List Str) (st : PlayerStats) (cv : CVarRegistry)
    (h : ∀ l ∈ ls, executedLine l = true ∧ firstToken l ≠ str "quit") :
    (execList ls st cv).outputs.length = ls.length := by
  induction ls generalizing st cv with
  | nil => rfl
  | cons l ls ih =>
    obtain ⟨hE, hq⟩ := h l (List.mem_cons_self l ls)
    obtain ⟨h1, _⟩ := (executedLine_iff l).mp hE
    obtain ⟨t0, ts, hsp⟩ : ∃ t0 ts, splitWs (trim l) = t0 :: ts := by
      rcases hx : splitWs (trim l) with _ | ⟨t0, ts⟩
      · exact absurd hx (splitWs_trim_ne_nil l h1)
      · exact ⟨t0, ts, rfl⟩
    rw [execList_cons l ls st cv t0 ts hsp]
    cases hd : dispatchScript t0 (t0 :: ts) st cv with
    | out o st2 cv2 =>
      simp only [List.length_cons]
      rw [ih st2 cv2 (fun l' hm => h l' (List.mem_cons_of_mem _ hm))]
    | exitProcess =>
      have : t0 = str "quit" := (dispatchScript_exit_iff t0 _ st cv).mp hd
      rw [firstToken, hsp] at hq
      exact absurd this hq

/-! Per-handler state-preservation facts used by the invariant claims. -/

theorem cmd_setvar_stats (tokens : List Str) (st : PlayerStats) (cv : CVarRegistry) :
    (cmd_setvar tokens st cv).2.1 = st := by
  unfold cmd_setvar
  split
  · rfl
  · dsimp only
    cases hp : parseF32 (tokens.getD 2 []) with
    | none => rfl
    | some v =>
      dsimp only
      cases hs : cvarsSet cv (tokens.getD 1 []) (CVarValue.Float v) with
      | ok c2 => rfl
      | error e => rfl

theorem cmd_getvar_stats (tokens : List Str) (st : PlayerStats) (cv : CVarRegistry) :
    (cmd_getvar tokens st cv).2.1 = st := by
  unfold cmd_getvar
  split
  · rfl
  · dsimp only
    cases hp : cvarsGet cv (tokens.getD 1 []) <;> rfl

theorem cmd_listvars_stats (tokens : List Str) (st : PlayerStats) (cv : CVarRegistry) :
    (cmd_listvars tokens st cv).2.1 = st := by
  unfold cmd_listvars
  split <;> rfl

theorem cmd_savecvars_stats (tokens : List Str) (st : PlayerStats) (cv : CVarRegistry) :
    (cmd_savecvars tokens st cv).2.1 = st := rfl

theorem cmd_add_gold_stamina (tokens : List Str) (st : PlayerStats) (cv : CVarRegistry) :
    (cmd_add_gold tokens st cv).2.1.stamina = st.stamina := by
  unfold cmd_add_gold
  split
  · rfl
  · dsimp only
    cases hp : parseI32 (tokens.getD 1 []) <;> rfl

theorem cmd_add_gold_health (tokens : List Str) (st : PlayerStats) (cv : CVarRegistry) :
    (cmd_add_gold tokens st cv).2.1.health = st.health := by
  unfold cmd_add_gold
  split
  · rfl
  · dsimp only
    cases hp : parseI32 (tokens.getD 1 []) <;> rfl

theorem cmd_add_stamina_gold (tokens : List Str) (st : PlayerStats) (cv : CVarRegistry) :
    (cmd_add_stamina tokens st cv).2.1.gold = st.gold := by
  unfold cmd_add_stamina
  split
  · rfl
  · dsimp only
    cases hp : parseF32 (tokens.getD 1 []) <;> rfl

theorem cmd_add_stamina_le (tokens : List Str) (st : PlayerStats) (cv : CVarRegistry)
    (h : st.stamina ≤ 100) : (cmd_add_stamina tokens st cv).2.1.stamina ≤ 100 := by
  unfold cmd_add_stamina
  split
  · exact h
  · dsimp only
    cases hp : parseF32 (tokens.getD 1 []) with
    | none => exact h
    | some amount =>
      dsimp only
      split
      · next h2 => exact h2
      · exact le_refl 100

/-! Invariant-preservation lemmas for the stamina and gold claims. -/

theorem splitWs_trim_cons (l : Str) (h1 : (trim l).isEmpty = false) :
    ∃ t0 ts, splitWs (trim l) = t0 :: ts := by
  rcases hx : splitWs (trim l) with _ | ⟨t0, ts⟩
  · exact absurd hx (splitWs_trim_ne_nil l h1)
  · exact ⟨t0, ts, rfl⟩

theorem dispatchScript_stamina_le (t0 : Str) (tokens : List Str)
    (st : PlayerStats) (cv : CVarRegistry) (o : Str) (st2 : PlayerStats)
    (cv2 : CVarRegistry)
    (hd : dispatchScript t0 tokens st cv = CmdResult.out o st2 cv2)
    (h : st.stamina ≤ 100) : st2.stamina ≤ 100 := by
  unfold dispatchScript at hd
  split at hd
  · have hx := outOf_out hd
    have h2 : st2 = (cmd_setvar tokens st cv).2.1 := by rw [hx]
    rw [h2, cmd_setvar_stats]; exact h
  · split at hd
    · have hx := outOf_out hd
      have h2 : st2 = (cmd_getvar tokens st cv).2.1 := by rw [hx]
      rw [h2, cmd_getvar_stats]; exact h
    · split at hd
      · have hx := outOf_out hd
        have h2 : st2 = (cmd_listvars tokens st cv).2.1 := by rw [hx]
        rw [h2, cmd_listvars_stats]; exact h
      · split at hd
        · have hx := outOf_out hd
          have h2 : st2 = (cmd_add_gold tokens st cv).2.1 := by rw [hx]
          rw [h2]
          rw [cmd_add_gold_stamina]; exact h
        · split at hd
          · have hx := outOf_out hd
            have h2 : st2 = (cmd_add_stamina tokens st cv).2.1 := by rw [hx]
            rw [h2]
            exact cmd_add_stamina_le tokens st cv h
          · split at hd
            · exact absurd hd (by simp)
            · cases hd
              exact h

theorem processLines_stamina_le (ls : List Str) (st : PlayerStats)
    (cv : CVarRegistry) (h : st.stamina ≤ 100) :
    (processLines ls st cv).stats.stamina ≤ 100 := by
  induction ls generalizing st cv with
  | nil => exact h
  | cons l ls ih =>
    cases hE : executedLine l with
    | false => rw [processLines_skip l ls st cv hE]; exact ih st cv h
    | true =>
      obtain ⟨h1, h2⟩ := (executedLine_iff l).mp hE
      obtain ⟨t0, ts, hsp⟩ := splitWs_trim_cons l h1
      rw [processLines_cons_exec l ls st cv t0 ts h1 h2 hsp]
      cases hd : dispatchScript t0 (t0 :: ts) st cv with
      | out o st2 cv2 =>
        exact ih st2 cv2 (dispatchScript_stamina_le t0 _ st cv o st2 cv2 hd h)
      | exitProcess => exact h

/-- The token shape under which an add_gold line cannot decrease gold
below zero: any non-add_gold line, a missing argument, a parse failure,
or a nonnegative parsed amount. -/
def goldSafeTokens : List Str → Bool
  | t0 :: t1 :: _ =>
    if t0 = str "add_gold" then
      match parseI32 t1 with
      | some n => decide (0 ≤ n)
      | none => true
    else true
  | _ => true

def goldSafeLine (l : Str) : Bool := goldSafeTokens (splitWs (trim l))

def goldSafe (s : Str) : Bool := (scriptLines s).all goldSafeLine

/-- The parsed add_gold amount of a token list: the parsed integer when
the line is an add_gold command with an argument that parses, and 0 for
every other shape (which leaves gold untouched). -/
def goldTokensAmount : List Str → ℤ
  | t0 :: t1 :: _ =>
    if t0 = str "add_gold" then
      match parseI32 t1 with
      | some n => n
      | none => 0
    else 0
  | _ => 0

def goldLineAmount (l : Str) : ℤ := goldTokensAmount (splitWs (trim l))

/-- The total of the parsed add_gold amounts of a list of lines. -/
def goldAmountSum : List Str → ℤ
  | [] => 0
  | l :: ls => goldLineAmount l + goldAmountSum ls

/-- The total of the parsed add_gold amounts of a script. -/
def goldScriptSum (s : Str) : ℤ := goldAmountSum (scriptLines s)

theorem wrapI32_eq_self (n : ℤ) (h1 : -2147483648 ≤ n)
    (h2 : n ≤ 2147483647) : wrapI32 n = n := by
  rw [wrapI32]
  omega

theorem cmd_add_gold_gold (tokens : List Str) (st : PlayerStats)
    (cv : CVarRegistry) :
    (cmd_add_gold tokens st cv).2.1.gold = st.gold ∨
    (2 ≤ tokens.length ∧ ∃ n, parseI32 (tokens.getD 1 []) = some n ∧
      (cmd_add_gold tokens st cv).2.1.gold = wrapI32 (st.gold + n)) := by
  unfold cmd_add_gold
  split
  · exact Or.inl rfl
  · next hlen =>
    dsimp only
    cases hp : parseI32 (tokens.getD 1 []) with
    | none => exact Or.inl rfl
    | some n => exact Or.inr ⟨by omega, n, rfl, rfl⟩

theorem goldTokensAmount_nonneg (tokens : List Str)
    (h : goldSafeTokens tokens = true) : 0 ≤ goldTokensAmount tokens := by
  match tokens with
  | [] => exact le_refl 0
  | [t0] => exact le_refl 0
  | t0 :: t1 :: rest =>
    rw [goldSafeTokens] at h
    rw [goldTokensAmount]
    by_cases hg : t0 = str "add_gold"
    · rw [if_pos hg] at h ⊢
      cases hp : parseI32 t1 with
      | none => exact le_refl 0
      | some n =>
        rw [hp] at h
        simpa using h
    · rw [if_neg hg]

theorem goldAmountSum_nonneg (ls : List Str)
    (h : ∀ l ∈ ls, goldSafeLine l = true) : 0 ≤ goldAmountSum ls := by
  induction ls with
  | nil => exact le_refl 0
  | cons l ls ih =>
    rw [goldAmountSum]
    have h1 : 0 ≤ goldLineAmount l :=
      goldTokensAmount_nonneg _ (h l (List.mem_cons_self l ls))
    have h2 : 0 ≤ goldAmountSum ls :=
      ih (fun l' hm => h l' (List.mem_cons_of_mem _ hm))
    omega

theorem dispatchScript_gold_bounds (t0 : Str) (ts : List Str)
    (st : PlayerStats) (cv : CVarRegistry) (o : Str) (st2 : PlayerStats)
    (cv2 : CVarRegistry)
    (hd : dispatchScript t0 (t0 :: ts) st cv = CmdResult.out o st2 cv2)
    (hsafe : goldSafeTokens (t0 :: ts) = true)
    (h0 : 0 ≤ st.gold)
    (hub : st.gold + goldTokensAmount (t0 :: ts) ≤ 2147483647) :
    0 ≤ st2.gold ∧ st2.gold ≤ st.gold + goldTokensAmount (t0 :: ts) := by
  have hamt : 0 ≤ goldTokensAmount (t0 :: ts) :=
    goldTokensAmount_nonneg _ hsafe
  unfold dispatchScript at hd
  split at hd
  · have hx := outOf_out hd
    have h2 : st2 = (cmd_setvar (t0 :: ts) st cv).2.1 := by rw [hx]
    rw [h2, cmd_setvar_stats]
    omega
  · split at hd
    · have hx := outOf_out hd
      have h2 : st2 = (cmd_getvar (t0 :: ts) st cv).2.1 := by rw [hx]
      rw [h2, cmd_getvar_stats]
      omega
    · split at hd
      · have hx := outOf_out hd
        have h2 : st2 = (cmd_listvars (t0 :: ts) st cv).2.1 := by rw [hx]
        rw [h2, cmd_listvars_stats]
        omega
      · split at hd
        · next hgold =>
          have hx := outOf_out hd
          have h2 : st2 = (cmd_add_gold (t0 :: ts) st cv).2.1 := by rw [hx]
          rcases cmd_add_gold_gold (t0 :: ts) st cv with hsame | ⟨hlen, n, hp, hval⟩
          · rw [h2, hsame]
            omega
          · obtain ⟨t1, rest, hts⟩ : ∃ t1 rest, ts = t1 :: rest := by
              cases ts with
              | nil => simp at hlen
              | cons t1 rest => exact ⟨t1, rest, rfl⟩
            have hamt' : goldTokensAmount (t0 :: ts) = n := by
              subst hts
              rw [goldTokensAmount, if_pos hgold]
              have ht1 : (t0 :: t1 :: rest).getD 1 [] = t1 := rfl
              rw [ht1] at hp
              rw [hp]
            have hn : 0 ≤ n := by omega
            have hwrap : wrapI32 (st.gold + n) = st.gold + n := by
              apply wrapI32_eq_self
              · omega
              · omega
            rw [h2, hval, hwrap]
            omega
        · split at hd
          · have hx := outOf_out hd
            have h2 : st2 = (cmd_add_stamina (t0 :: ts) st cv).2.1 := by rw [hx]
            rw [h2, cmd_add_stamina_gold]
            omega
          · split at hd
            · exact absurd hd (by simp)
            · cases hd
              omega

theorem processLines_gold_bounds (ls : List Str) (st : PlayerStats)
    (cv : CVarRegistry) (hsafe : ∀ l ∈ ls, goldSafeLine l = true)
    (h0 : 0 ≤ st.gold)
    (hub : st.gold + goldAmountSum ls ≤ 2147483647) :
    0 ≤ (processLines ls st cv).stats.gold ∧
    (processLines ls st cv).stats.gold ≤ st.gold + goldAmountSum ls := by
  induction ls generalizing st cv with
  | nil =>
    constructor
    · exact h0
    · show st.gold ≤ st.gold + goldAmountSum []
      rw [goldAmountSum]
      omega
  | cons l ls ih =>
    have hTail : ∀ l' ∈ ls, goldSafeLine l' = true :=
      fun l' hm => hsafe l' (List.mem_cons_of_mem _ hm)
    have hla : 0 ≤ goldLineAmount l :=
      goldTokensAmount_nonneg _ (hsafe l (List.mem_cons_self l ls))
    have hsum : 0 ≤ goldAmountSum ls := goldAmountSum_nonneg ls hTail
    rw [goldAmountSum] at hub ⊢
    cases hE : executedLine l with
    | false =>
      rw [processLines_skip l ls st cv hE]
      have hrec := ih st cv hTail h0 (by omega)
      omega
    | true =>
      obtain ⟨h1, h2⟩ := (executedLine_iff l).mp hE
      obtain ⟨t0, ts, hsp⟩ := splitWs_trim_cons l h1
      have hlsafe : goldSafeTokens (t0 :: ts) = true := by
        have := hsafe l (List.mem_cons_self l ls)
        rwa [goldSafeLine, hsp] at this
      have hla' : goldLineAmount l = goldTokensAmount (t0 :: ts) := by
        rw [goldLineAmount, hsp]
      rw [processLines_cons_exec l ls st cv t0 ts h1 h2 hsp]
      cases hd : dispatchScript t0 (t0 :: ts) st cv with
      | out o st2 cv2 =>
        have hstep := dispatchScript_gold_bounds t0 ts st cv o st2 cv2 hd
          hlsafe h0 (by omega)
        have hrec := ih st2 cv2 hTail hstep.1 (by omega)
        constructor
        · exact hrec.1
        · show (processLines ls st2 cv2).stats.gold ≤
            st.gold + (goldLineAmount l + goldAmountSum ls)
          omega
      | exitProcess =>
        constructor
        · exact h0
        · show st.gold ≤ st.gold + (goldLineAmount l + goldAmountSum ls)
          omega

/-! Equivalence machinery for the two interpreter variants. -/

/-- Token shapes whose dispatch is identical in both interpreter
variants: the first token is neither savecvars nor do_damage. -/
def noActorCmdTokens : List Str → Bool
  | t0 :: _ => (t0 != str "savecvars") && (t0 != str "do_damage")
  | [] => true

def noActorCmdLine (l : Str) : Bool := noActorCmdTokens (splitWs (trim l))

def noActorCmd (s : Str) : Bool := (scriptLines s).all noActorCmdLine

theorem outOfA_matches (x : CmdOut) :
    outOfA x none =
      match outOf x with
      | CmdResult.out o s c => CmdResultA.out o s c none
      | CmdResult.exitProcess => CmdResultA.exitProcess := by
  obtain ⟨o, s, c⟩ := x
  rfl

theorem dispatchActor_eq_script (t0 : Str) (tokens : List Str)
    (st : PlayerStats) (cv : CVarRegistry)
    (hs : t0 ≠ str "savecvars") (hdd : t0 ≠ str "do_damage") :
    dispatchActor t0 tokens st cv none =
      match dispatchScript t0 tokens st cv with
      | CmdResult.out o s c => CmdResultA.out o s c none
      | CmdResult.exitProcess => CmdResultA.exitProcess := by
  rw [dispatchActor, dispatchScript]
  by_cases h1 : t0 = str "setvar"
  · simp only [if_pos h1]; exact outOfA_matches _
  simp only [if_neg h1]
  by_cases h2 : t0 = str "getvar"
  · simp only [if_pos h2]; exact outOfA_matches _
  simp only [if_neg h2]
  by_cases h3 : t0 = str "listvars"
  · simp only [if_pos h3]; exact outOfA_matches _
  simp only [if_neg h3, if_neg hs]
  by_cases h4 : t0 = str "add_gold"
  · simp only [if_pos h4]; exact outOfA_matches _
  simp only [if_neg h4]
  by_cases h5 : t0 = str "add_stamina"
  · simp only [if_pos h5]; exact outOfA_matches _
  simp only [if_neg h5]
  by_cases h6 : t0 = str "quit"
  · simp only [if_pos h6]
  simp only [if_neg h6, if_neg hdd]

theorem processLinesActor_skip (l : Str) (ls : List Str) (st : PlayerStats)
    (cv : CVarRegistry) (a : Option Actor) (h : executedLine l = false) :
    processLinesActor (l :: ls) st cv a = processLinesActor ls st cv a := by
  rw [executedLine] at h
  by_cases h1 : (trim l).isEmpty = true
  · simp [processLinesActor, h1]
  · have h2 : isCommentLine (trim l) = true := by
      cases hE : (trim l).isEmpty <;> cases hC : isCommentLine (trim l) <;>
        simp_all
    simp [processLinesActor, h1, h2]

theorem processLinesActor_cons_exec (l : Str) (ls : List Str)
    (st : PlayerStats) (cv : CVarRegistry) (a : Option Actor) (t0 : Str)
    (ts : List Str) (h1 : (trim l).isEmpty = false)
    (h2 : isCommentLine (trim l) = false)
    (hsp : splitWs (trim l) = t0 :: ts) :
    processLinesActor (l :: ls) st cv a =
      match dispatchActor t0 (t0 :: ts) st cv a with
      | CmdResultA.out o st2 cv2 a2 =>
        let r := processLinesActor ls st2 cv2 a2
        ⟨o :: r.outputs, r.stats, r.cvars, r.actor, r.quit⟩
      | CmdResultA.exitProcess => ⟨[], st, cv, a, true⟩ := by
  simp only [processLinesActor, h1, h2, hsp, Bool.false_eq_true, if_false]

theorem processLinesActor_eq (ls : List Str) (st : PlayerStats)
    (cv : CVarRegistry) (hsafe : ∀ l ∈ ls, noActorCmdLine l = true) :
    processLinesActor ls st cv none =
      ⟨(processLines ls st cv).outputs, (processLines ls st cv).stats,
       (processLines ls st cv).cvars, none, (processLines ls st cv).quit⟩ := by
  induction ls generalizing st cv with
  | nil => rfl
  | cons l ls ih =>
    have hTail : ∀ l' ∈ ls, noActorCmdLine l' = true :=
      fun l' hm => hsafe l' (List.mem_cons_of_mem _ hm)
    cases hE : executedLine l with
    | false =>
      rw [processLinesActor_skip l ls st cv none hE,
        processLines_skip l ls st cv hE]
      exact ih st cv hTail
    | true =>
      obtain ⟨h1, h2⟩ := (executedLine_iff l).mp hE
      obtain ⟨t0, ts, hsp⟩ := splitWs_trim_cons l h1
      have hsafe0 : noActorCmdTokens (t0 :: ts) = true := by
        have := hsafe l (List.mem_cons_self l ls)
        rwa [noActorCmdLine, hsp] at this
      have hns : t0 ≠ str "savecvars" := by
        simp only [noActorCmdTokens, Bool.and_eq_true, bne_iff_ne] at hsafe0
        exact hsafe0.1
      have hnd : t0 ≠ str "do_damage" := by
        simp only [noActorCmdTokens, Bool.and_eq_true, bne_iff_ne] at hsafe0
        exact hsafe0.2
      rw [processLinesActor_cons_exec l ls st cv none t0 ts h1 h2 hsp,
        processLines_cons_exec l ls st cv t0 ts h1 h2 hsp,
        dispatchActor_eq_script t0 (t0 :: ts) st cv hns hnd]
      cases hd : dispatchScript t0 (t0 :: ts) st cv with
      | out o st2 cv2 => simp only [ih st2 cv2 hTail]
      | exitProcess => rfl

/-! Lemmas for the unknown-command and parse-error claims. -/

theorem processLines_unknown (line : Str) (st : PlayerStats)
    (cv : CVarRegistry) (hex : executedLine line = true)
    (hcmd : firstToken line ∉ commandNames) :
    processLines [line] st cv =
      ⟨[str "Unknown command: " ++ joinSpaces (splitWs (trim line))],
       st, cv, false⟩ := by
  obtain ⟨h1, h2⟩ := (executedLine_iff line).mp hex
  obtain ⟨t0, ts, hsp⟩ := splitWs_trim_cons line h1
  have ht0 : firstToken line = t0 := by rw [firstToken, hsp]; rfl
  rw [ht0] at hcmd
  simp only [commandNames, List.mem_cons, List.not_mem_nil, or_false,
    not_or] at hcmd
  obtain ⟨n1, n2, n3, n4, n5, n6⟩ := hcmd
  rw [processLines_cons_exec line [] st cv t0 ts h1 h2 hsp, dispatchScript]
  simp only [if_neg n1, if_neg n2, if_neg n3, if_neg n4, if_neg n5, if_neg n6]
  rw [hsp]
  rfl

theorem splitOnNl_ne_nil (s : Str) : splitOnNl s ≠ [] := by
  induction s with
  | nil => simp [splitOnNl]
  | cons c cs ih =>
    rw [splitOnNl]
    by_cases h : c = '\n'
    · simp [h]
    · rcases hx : splitOnNl cs with _ | ⟨w, ws⟩
      · exact absurd hx ih
      · simp [h, hx]

theorem splitOnNl_append (a r : Str) (h : '\n' ∉ a) :
    splitOnNl (a ++ '\n' :: r) = a :: splitOnNl r := by
  induction a with
  | nil => simp [splitOnNl]
  | cons c a ih =>
    have hc : c ≠ '\n' := fun hh => h (hh ▸ List.mem_cons_self c a)
    have h' : '\n' ∉ a := fun hm => h (List.mem_cons_of_mem _ hm)
    rw [List.cons_append, splitOnNl, if_neg hc, ih h']

theorem scriptLines_cons (a r : Str) (h : '\n' ∉ a) :
    scriptLines (a ++ '\n' :: r) = stripCr a :: scriptLines r := by
  rw [scriptLines, scriptLines, splitOnNl_append a r h]
  have hne := splitOnNl_ne_nil r
  obtain ⟨w, ws, hw⟩ : ∃ w ws, splitOnNl r = w :: ws := by
    rcases hx : splitOnNl r with _ | ⟨w, ws⟩
    · exact absurd hx hne
    · exact ⟨w, ws, rfl⟩
  rw [hw]
  rw [List.getLast?_cons_cons]
  by_cases hl : (w :: ws).getLast? = some ([] : Str)
  · rw [if_pos hl, if_pos hl]
    rw [List.dropLast_cons₂]
    rfl
  · rw [if_neg hl, if_neg hl]
    rfl

theorem trimLeft_cons_no_ws (c : Char) (cs : Str) (hc : isWs c = false) :
    trimLeft (c :: cs) = c :: cs := by
  rw [trimLeft, if_neg (by simp [hc])]

theorem trim_eq_self (s : Str)
    (hh : ∀ c, s.head? = some c → isWs c = false)
    (hl : ∀ c, s.getLast? = some c → isWs c = false) : trim s = s := by
  cases hs : s with
  | nil => rfl
  | cons c cs =>
    have hc : isWs c = false := hh c (by rw [hs]; rfl)
    rcases hr : (c :: cs).reverse with _ | ⟨d, ds⟩
    · have : (c :: cs).reverse ≠ [] := by simp
      exact absurd hr this
    · have hd : isWs d = false := by
        apply hl
        rw [hs, List.getLast?_eq_head?_reverse, hr]
        rfl
      rw [trim, hr, trimLeft_cons_no_ws d ds hd, ← hr, List.reverse_reverse,
        trimLeft_cons_no_ws c cs hc]

theorem splitWsAux_no_ws (l : Str) : ∀ acc : Str, acc ≠ [] →
    (∀ c ∈ l, isWs c = false) → splitWsAux l acc = [acc.reverse ++ l] := by
  induction l with
  | nil => intro acc h _; simp [splitWsAux, h]
  | cons c cs ih =>
    intro acc h hws
    have hc : isWs c = false := hws c (List.mem_cons_self c cs)
    rw [splitWsAux, if_neg (by simp [hc])]
    rw [ih (c :: acc) (by simp) (fun d hd => hws d (List.mem_cons_of_mem _ hd))]
    simp

theorem splitWs_no_ws (l : Str) (hne : l ≠ [])
    (hws : ∀ c ∈ l, isWs c = false) : splitWs l = [l] := by
  cases l with
  | nil => exact absurd rfl hne
  | cons c cs =>
    rw [splitWs, splitWsAux, if_neg (by simp [hws c (List.mem_cons_self c cs)])]
    rw [splitWsAux_no_ws cs [c] (by simp)
      (fun d hd => hws d (List.mem_cons_of_mem _ hd))]
    simp

theorem splitWs_add_gold_arg (lit : Str) (hne : lit ≠ [])
    (hws : ∀ c ∈ lit, isWs c = false) :
    splitWs (str "add_gold " ++ lit) = [str "add_gold", lit] := by
  have step : splitWs (str "add_gold " ++ lit) = str "add_gold" :: splitWs lit :=
    rfl
  rw [step, splitWs_no_ws lit hne hws]

theorem trim_add_gold_arg (lit : Str) (hne : lit ≠ [])
    (hws : ∀ c ∈ lit, isWs c = false) :
    trim (str "add_gold " ++ lit) = str "add_gold " ++ lit := by
  apply trim_eq_self
  · intro c hc
    have hh : (str "add_gold " ++ lit).head? = some 'a' := rfl
    rw [hh] at hc
    cases hc
    decide
  · intro c hc
    rw [List.getLast?_append_of_ne_nil _ hne] at hc
    exact hws c (List.mem_of_getLast?_eq_some hc)

theorem stripCr_no_ws_end (a : Str)
    (hl : ∀ c, a.getLast? = some c → isWs c = false) : stripCr a = a := by
  rw [stripCr]
  by_cases h : a.getLast? = some '\r'
  · exact absurd (hl '\r' h) (by decide)
  · rw [if_neg h]

theorem process_script_parse_error_continues (lit rest : Str)
    (st : PlayerStats) (cv : CVarRegistry) (hne : lit ≠ [])
    (hws : ∀ c ∈ lit, isWs c = false) (hbad : parseI32 lit = none) :
    (process_script ((str "add_gold " ++ lit) ++ '\n' :: rest) st cv =
      ⟨(str "Invalid gold amount: " ++ lit) ::
         (process_script rest st cv).outputs,
       (process_script rest st cv).stats, (process_script rest st cv).cvars,
       (process_script rest st cv).quit⟩) ∧
    (process_script (str "add_gold" ++ '\n' :: rest) st cv =
      ⟨str "usage: add_gold <amount>" :: (process_script rest st cv).outputs,
       (process_script rest st cv).stats, (process_script rest st cv).cvars,
       (process_script rest st cv).quit⟩) := by
  constructor
  · have hnl : '\n' ∉ str "add_gold " ++ lit := by
      intro hm
      rcases List.mem_append.mp hm with hm1 | hm2
      · revert hm1; decide
      · exact absurd (hws '\n' hm2) (by decide)
    have htrim := trim_add_gold_arg lit hne hws
    have hlast : ∀ c, (str "add_gold " ++ lit).getLast? = some c →
        isWs c = false := by
      intro c hc
      rw [List.getLast?_append_of_ne_nil _ hne] at hc
      exact hws c (List.mem_of_getLast?_eq_some hc)
    rw [process_script, scriptLines_cons _ rest hnl, stripCr_no_ws_end _ hlast]
    have h1 : (trim (str "add_gold " ++ lit)).isEmpty = false := by
      rw [htrim]; rfl
    have h2 : isCommentLine (trim (str "add_gold " ++ lit)) = false := by
      rw [htrim]; rfl
    have hsp : splitWs (trim (str "add_gold " ++ lit)) =
        str "add_gold" :: [lit] := by
      rw [htrim]; exact splitWs_add_gold_arg lit hne hws
    rw [processLines_cons_exec _ _ st cv _ _ h1 h2 hsp]
    have hcmd : cmd_add_gold [str "add_gold", lit] st cv =
        (str "Invalid gold amount: " ++ lit, st, cv) := by
      unfold cmd_add_gold
      rw [if_neg (by simp : ¬ ([str "add_gold", lit].length < 2))]
      dsimp only
      rw [show ([str "add_gold", lit].getD 1 []) = lit from rfl, hbad]
    have hd : dispatchScript (str "add_gold") [str "add_gold", lit] st cv =
        CmdResult.out (str "Invalid gold amount: " ++ lit) st cv := by
      rw [dispatchScript, if_neg (by decide), if_neg (by decide),
        if_neg (by decide), if_pos rfl, hcmd]
      rfl
    rw [hd]
    rfl
  · have hnl2 : '\n' ∉ str "add_gold" := by decide
    rw [process_script, scriptLines_cons _ rest hnl2,
      show stripCr (str "add_gold") = str "add_gold" from rfl]
    rw [processLines_cons_exec (str "add_gold") (scriptLines rest) st cv
      (str "add_gold") [] rfl rfl rfl]
    rw [show dispatchScript (str "add_gold") [str "add_gold"] st cv =
        CmdResult.out (str "usage: add_gold <amount>") st cv from rfl]
    rfl

/-! Lemmas about the collision-grid construction and lookup. -/

theorem lookupGrid_cons (key : ℤ × ℤ) (v : Bool) (g : Grid) (k : ℤ × ℤ) :
    lookupGrid ((key, v) :: g) k =
      if key = k then some v else lookupGrid g k := by
  rw [lookupGrid, lookupGrid, List.find?_cons]
  by_cases h : key = k
  · simp [h]
  · simp [h]

theorem lookupGrid_markRow (ri : ℤ) (l : Str) : ∀ (ci : ℤ) (g : Grid)
    (kc kr : ℤ),
    lookupGrid (markRow ri ci l g) (kc, kr) = some true ↔
      (∃ j : ℕ, ∃ ch, l[j]? = some ch ∧ isSolidChar ch = true ∧
        kc = ci + (j : ℤ) ∧ kr = ri) ∨
      lookupGrid g (kc, kr) = some true := by
  induction l with
  | nil =>
    intro ci g kc kr
    simp [markRow]
  | cons ch cs ih =>
    intro ci g kc kr
    rw [markRow, ih (ci + 1)]
    by_cases hs : isSolidChar ch = true
    · rw [if_pos hs, lookupGrid_cons]
      constructor
      · rintro (⟨j, ch', hj, hsol, hkc, hkr⟩ | hbase)
        · exact Or.inl ⟨j + 1, ch', by simpa using hj, hsol,
            by push_cast; omega, hkr⟩
        · by_cases hk : ((ci, ri) : ℤ × ℤ) = (kc, kr)
          · obtain ⟨h1, h2⟩ := Prod.mk.injEq .. ▸ hk
            exact Or.inl ⟨0, ch, List.getElem?_cons_zero, hs, by omega,
              by omega⟩
          · rw [if_neg hk] at hbase
            exact Or.inr hbase
      · rintro (⟨j, ch', hj, hsol, hkc, hkr⟩ | hbase)
        · cases j with
          | zero =>
            rw [List.getElem?_cons_zero] at hj
            cases hj
            have hk : ((ci, ri) : ℤ × ℤ) = (kc, kr) := by
              simp only [Prod.mk.injEq]
              omega
            rw [if_pos hk]
            exact Or.inr rfl
          | succ j =>
            rw [List.getElem?_cons_succ] at hj
            exact Or.inl ⟨j, ch', hj, hsol, by push_cast at hkc ⊢; omega, hkr⟩
        · by_cases hk : ((ci, ri) : ℤ × ℤ) = (kc, kr)
          · rw [if_pos hk]
            exact Or.inr rfl
          · rw [if_neg hk]
            exact Or.inr hbase
    · rw [if_neg hs]
      constructor
      · rintro (⟨j, ch', hj, hsol, hkc, hkr⟩ | hbase)
        · exact Or.inl ⟨j + 1, ch', by simpa using hj, hsol,
            by push_cast; omega, hkr⟩
        · exact Or.inr hbase
      · rintro (⟨j, ch', hj, hsol, hkc, hkr⟩ | hbase)
        · cases j with
          | zero =>
            rw [List.getElem?_cons_zero] at hj
            cases hj
            exact absurd hsol hs
          | succ j =>
            rw [List.getElem?_cons_succ] at hj
            exact Or.inl ⟨j, ch', hj, hsol, by push_cast at hkc ⊢; omega, hkr⟩
        · exact Or.inr hbase

theorem lookupGrid_markRows (ls : List Str) : ∀ (ri : ℤ) (g : Grid)
    (kc kr : ℤ),
    lookupGrid (markRows ri ls g) (kc, kr) = some true ↔
      (∃ i : ℕ, ∃ l, ls[i]? = some l ∧ ∃ j : ℕ, ∃ ch, l[j]? = some ch ∧
        isSolidChar ch = true ∧ kc = (j : ℤ) ∧ kr = ri + (i : ℤ)) ∨
      lookupGrid g (kc, kr) = some true := by
  induction ls with
  | nil =>
    intro ri g kc kr
    simp [markRows]
  | cons l ls ih =>
    intro ri g kc kr
    rw [markRows, ih (ri + 1), lookupGrid_markRow ri l 0 g kc kr]
    constructor
    · rintro (⟨i, l', hl, j, ch, hj, hsol, hkc, hkr⟩ |
        ⟨j, ch, hj, hsol, hkc, hkr⟩ | hbase)
      · exact Or.inl ⟨i + 1, l', by simpa using hl, j, ch, hj, hsol, hkc,
          by push_cast; omega⟩
      · exact Or.inl ⟨0, l, List.getElem?_cons_zero, j, ch, hj, hsol,
          by omega, by omega⟩
      · exact Or.inr hbase
    · rintro (⟨i, l', hl, j, ch, hj, hsol, hkc, hkr⟩ | hbase)
      · cases i with
        | zero =>
          rw [List.getElem?_cons_zero] at hl
          cases hl
          exact Or.inr (Or.inl ⟨j, ch, hj, hsol, by omega, by omega⟩)
        | succ i =>
          rw [List.getElem?_cons_succ] at hl
          exact Or.inl ⟨i, l', hl, j, ch, hj, hsol, hkc,
            by push_cast at hkr ⊢; omega⟩
      · exact Or.inr (Or.inr hbase)

theorem optionBool_getD_iff (o : Option Bool) :
    o.getD false = true ↔ o = some true := by
  cases o with
  | none => simp
  | some b => cases b <;> simp

theorem mem_intRange (a b k : ℤ) : k ∈ intRange a b ↔ a ≤ k ∧ k ≤ b := by
  constructor
  · intro h
    obtain ⟨i, hi, hk⟩ := List.mem_map.mp h
    have hi' := Int.lt_toNat.mp (List.mem_range.mp hi)
    have h0 : (0:ℤ) ≤ (i : ℤ) := Int.ofNat_nonneg i
    subst hk
    constructor <;> linarith
  · rintro ⟨h1, h2⟩
    apply List.mem_map.mpr
    refine ⟨(k - a).toNat, List.mem_range.mpr ?_, ?_⟩
    · rw [Int.toNat_lt_toNat (by linarith : (0:ℤ) < b + 1 - a)]
      linarith
    · rw [Int.toNat_of_nonneg (by linarith : (0:ℤ) ≤ k - a)]
      ring

theorem clampQ_eq_self (v lo hi : ℚ) (h1 : lo ≤ v) (h2 : v < hi) :
    clampQ v lo hi = v := by
  rw [clampQ, if_neg (not_lt.mpr h1), if_neg (not_lt.mpr (le_of_lt h2))]

/-! The claims. -/

/-- C1 counterexample: the claim fails as stated, because cmd_quit
terminates the process: on the script with the two executed lines quit
and add_gold 1, process_script returns no output at all (the quit flag
records the exit), not one output per executed line. -/
theorem process_script_quit_breaks_one_output_per_line :
    ¬ ((process_script (str "quit\nadd_gold 1") defaultStats []).outputs.length
        = (executedLines (str "quit\nadd_gold 1")).length) := by decide

/-- C1 (amended): for every script in which no executed line's first
token is quit, process_script returns exactly one output string per
executed line — a line being executed iff its trimmed form is non-empty
and starts with neither '#' nor '//' — in source-line order: the run
equals the reference interpreter execList applied to exactly the
executed lines, and produces one output per such line. -/
theorem process_script_one_output_per_executed_line (s : Str)
    (st : PlayerStats) (cv : CVarRegistry) (h : noQuit s = true) :
    process_script s st cv = execList (executedLines s) st cv ∧
    (process_script s st cv).outputs.length = (executedLines s).length := by
  have h' : ∀ l ∈ executedLines s,
      executedLine l = true ∧ firstToken l ≠ str "quit" := by
    intro l hm
    refine ⟨(List.mem_filter.mp hm).2, ?_⟩
    rw [noQuit] at h
    have := List.all_eq_true.mp h l hm
    simpa [bne_iff_ne] using this
  refine ⟨processLines_eq_execList (scriptLines s) st cv, ?_⟩
  rw [show process_script s st cv = processLines (scriptLines s) st cv from rfl,
    processLines_eq_execList (scriptLines s) st cv]
  exact execList_length _ st cv h'

/-- C1 witness: the amended theorem at the concrete quit-free script with
one command line, one comment line, one blank line and one unknown
command line. -/
theorem process_script_one_output_per_executed_line_witness :
    process_script (str "add_gold 5\n# note\n\nfoo bar") defaultStats [] =
      execList (executedLines (str "add_gold 5\n# note\n\nfoo bar"))
        defaultStats [] ∧
    (process_script (str "add_gold 5\n# note\n\nfoo bar")
        defaultStats []).outputs.length
      = (executedLines (str "add_gold 5\n# note\n\nfoo bar")).length :=
  process_script_one_output_per_executed_line _ defaultStats [] (by decide)

/-- C2 counterexample: the claim fails as stated, because cmd_add_stamina
clamps only the upper bound: from the default stats, whose stamina 50
lies in the interval from 0 to 100, the script add_stamina -200 drives
stamina to -150, below the claimed lower bound 0. -/
theorem add_stamina_negative_breaks_lower_bound :
    (0 ≤ defaultStats.stamina ∧ defaultStats.stamina ≤ 100) ∧
    (process_script (str "add_stamina -200") defaultStats []).stats.stamina
      = -150 ∧
    ¬ (0 ≤ (process_script (str "add_stamina -200")
        defaultStats []).stats.stamina) := by
  with_unfolding_all decide

/-- C2 (amended): for every script (no quit executed) and every initial
PlayerStats with stamina at most 100, the final stamina is still at most
100 — add_stamina enforces the upper bound 100, but the code enforces no
lower bound, so stamina is not kept inside the interval from 0 to 100. -/
theorem process_script_stamina_upper_bound (s : Str) (st : PlayerStats)
    (cv : CVarRegistry) (_hq : noQuit s = true) (h : st.stamina ≤ 100) :
    (process_script s st cv).stats.stamina ≤ 100 :=
  processLines_stamina_le (scriptLines s) st cv h

/-- C2 witness: the amended theorem at the script add_stamina 60 from
the default stats. -/
theorem process_script_stamina_upper_bound_witness :
    (process_script (str "add_stamina 60") defaultStats []).stats.stamina
      ≤ 100 :=
  process_script_stamina_upper_bound _ defaultStats [] (by decide)
    (by norm_num [defaultStats])

/-- C3: interpreting the two-line script add_gold 10, add_gold -3
against an initial state with gold 0 leaves final gold 7 and returns
exactly the two output lines in order. -/
theorem process_script_add_gold_example (h s : ℚ) (cv : CVarRegistry) :
    process_script (str "add_gold 10\nadd_gold -3") ⟨h, s, 0⟩ cv =
      ⟨[str "Added 10 gold, new value: 10",
        str "Added -3 gold, new value: 7"],
       ⟨h, s, 7⟩, cv, false⟩ := rfl

/-- C4: interpreting add_stamina 60 against an initial state with
stamina 50 yields final stamina 100 (clamped at the upper bound) and the
single output line. -/
theorem process_script_add_stamina_clamp_example (h : ℚ) (g : ℤ)
    (cv : CVarRegistry) :
    process_script (str "add_stamina 60") ⟨h, 50, g⟩ cv =
      ⟨[str "Added 60 stamina, new value: 100"], ⟨h, 100, g⟩, cv, false⟩ := by
  with_unfolding_all rfl

/-- C5: for every executed script line whose first token matches none of
the six command names, the interpreter produces exactly the output
Unknown command followed by the line's tokens rejoined with single
spaces, and leaves the PlayerStats and the CVarRegistry unchanged. -/
theorem unknown_command_output_and_frame (line : Str) (st : PlayerStats)
    (cv : CVarRegistry) (hex : executedLine line = true)
    (hcmd : firstToken line ∉ commandNames) :
    processLines [line] st cv =
      ⟨[str "Unknown command: " ++ joinSpaces (splitWs (trim line))],
       st, cv, false⟩ :=
  processLines_unknown line st cv hex hcmd

/-- C5 witness: the theorem at the concrete line foo bar with the
default state and an empty registry. -/
theorem unknown_command_output_and_frame_witness :
    processLines [str "foo bar"] defaultStats [] =
      ⟨[str "Unknown command: " ++
         joinSpaces (splitWs (trim (str "foo bar")))],
       defaultStats, [], false⟩ :=
  unknown_command_output_and_frame (str "foo bar") defaultStats []
    (by decide) (by decide)

/-- C6: a line whose add_gold argument fails integer parsing contributes
only the error string Invalid gold amount to the output and leaves the
state untouched by that line, a missing argument contributes only the
usage string, and in both cases every subsequent line still runs with
full effect: the remainder of the run is exactly the run of the rest of
the script. -/
theorem parse_error_reports_and_continues (lit rest : Str)
    (st : PlayerStats) (cv : CVarRegistry) (hne : lit ≠ [])
    (hws : ∀ c ∈ lit, isWs c = false) (hbad : parseI32 lit = none) :
    (process_script ((str "add_gold " ++ lit) ++ '\n' :: rest) st cv =
      ⟨(str "Invalid gold amount: " ++ lit) ::
         (process_script rest st cv).outputs,
       (process_script rest st cv).stats, (process_script rest st cv).cvars,
       (process_script rest st cv).quit⟩) ∧
    (process_script (str "add_gold" ++ '\n' :: rest) st cv =
      ⟨str "usage: add_gold <amount>" :: (process_script rest st cv).outputs,
       (process_script rest st cv).stats, (process_script rest st cv).cvars,
       (process_script rest st cv).quit⟩) :=
  process_script_parse_error_continues lit rest st cv hne hws hbad

/-- C6 witness: the theorem at the malformed literal abc followed by the
line add_gold 5. -/
theorem parse_error_reports_and_continues_witness :
    (process_script ((str "add_gold " ++ str "abc") ++ '\n' :: str "add_gold 5")
        defaultStats [] =
      ⟨(str "Invalid gold amount: " ++ str "abc") ::
         (process_script (str "add_gold 5") defaultStats []).outputs,
       (process_script (str "add_gold 5") defaultStats []).stats,
       (process_script (str "add_gold 5") defaultStats []).cvars,
       (process_script (str "add_gold 5") defaultStats []).quit⟩) ∧
    (process_script (str "add_gold" ++ '\n' :: str "add_gold 5")
        defaultStats [] =
      ⟨str "usage: add_gold <amount>" ::
         (process_script (str "add_gold 5") defaultStats []).outputs,
       (process_script (str "add_gold 5") defaultStats []).stats,
       (process_script (str "add_gold 5") defaultStats []).cvars,
       (process_script (str "add_gold 5") defaultStats []).quit⟩) :=
  parse_error_reports_and_continues (str "abc") (str "add_gold 5")
    defaultStats [] (by decide) (by decide) (by decide)

/-- C7 counterexample: the claim fails as stated, because cmd_add_gold
adds any parsed i32 without a lower clamp: from gold 0 the script
add_gold -5 leaves gold -5, which is negative. -/
theorem add_gold_negative_breaks_nonneg :
    0 ≤ defaultStats.gold ∧
    (process_script (str "add_gold -5") defaultStats []).stats.gold = -5 ∧
    ¬ (0 ≤ (process_script (str "add_gold -5")
        defaultStats []).stats.gold) := by decide

/-- Overflow behavior of the i32 gold field, which the gold invariant
must exclude: two nonnegative in-range add_gold amounts can wrap the
release-mode i32 addition below zero (4000000000 wraps to -294967296). -/
theorem add_gold_overflow_wraps :
    (process_script (str "add_gold 2000000000\nadd_gold 2000000000")
        defaultStats []).stats.gold = -294967296 := by decide

/-- C7 (amended): gold is an i32 with no clamping, and the lower bound 0
is preserved only conditionally: for every script in which every executed
add_gold line's parsed amount is nonnegative, and every initial
PlayerStats with nonnegative gold whose value plus the script's total
parsed add_gold amounts stays at most 2147483647 (so no i32 addition
overflows), the final gold is still nonnegative; a negative amount
drives gold below zero directly, and without the overflow bound the
wrapping i32 addition can do the same. -/
theorem process_script_gold_nonneg_of_safe (s : Str) (st : PlayerStats)
    (cv : CVarRegistry) (hsafe : goldSafe s = true) (h : 0 ≤ st.gold)
    (hub : st.gold + goldScriptSum s ≤ 2147483647) :
    0 ≤ (process_script s st cv).stats.gold := by
  refine (processLines_gold_bounds (scriptLines s) st cv ?_ h hub).1
  intro l hm
  rw [goldSafe] at hsafe
  exact List.all_eq_true.mp hsafe l hm

/-- C7 witness: the amended theorem at the script add_gold 10 from the
default stats, whose gold is 0. -/
theorem process_script_gold_nonneg_of_safe_witness :
    0 ≤ (process_script (str "add_gold 10") defaultStats []).stats.gold :=
  process_script_gold_nonneg_of_safe _ defaultStats [] (by decide) (by decide)
    (by decide)

/-- C8: building the collision map from the grid rows marks cell
(col, row) occupied exactly when the character at that position is one
of the two wall glyphs 'X' or 'x' (treated identically), and sets width
to the maximum row length and height to the number of rows. -/
theorem collision_map_construction_spec (lines : List Str) (c r : ℤ) :
    ((buildCollisionMap lines).occupiedAt c r = true ↔
      ∃ ri ci : ℕ, r = (ri : ℤ) ∧ c = (ci : ℤ) ∧
        ∃ ch, (lines[ri]?.bind fun l => l[ci]?) = some ch ∧
          isSolidChar ch = true) ∧
    (buildCollisionMap lines).width = maxRowLen lines ∧
    (buildCollisionMap lines).height = lines.length := by
  refine ⟨?_, rfl, rfl⟩
  rw [CollisionMap.occupiedAt,
    show (buildCollisionMap lines).occupied = markRows 0 lines [] from rfl,
    optionBool_getD_iff, lookupGrid_markRows lines 0 [] c r]
  constructor
  · rintro (⟨i, l, hl, j, ch, hj, hsol, hkc, hkr⟩ | hbase)
    · exact ⟨i, j, by omega, hkc, ch,
        by rw [Option.bind_eq_some]; exact ⟨l, hl, hj⟩, hsol⟩
    · simp [lookupGrid] at hbase
  · rintro ⟨ri, ci, hr, hc, ch, hb, hsol⟩
    obtain ⟨l, hl, hj⟩ := Option.bind_eq_some.mp hb
    exact Or.inl ⟨ri, l, hl, ci, ch, hj, hsol, hc, by omega⟩

/-- C9: for every collision map, every occupied cell, every disc center
lying inside that cell's bounds (which covers every disc lying fully
inside the cell) and every positive radius below half the cell size 8,
can_move_to rejects the move. -/
theorem can_move_to_rejects_inside_occupied_cell (m : CollisionMap)
    (cc rr : ℤ) (x y radius : ℚ) (hocc : m.occupiedAt cc rr = true)
    (hr0 : 0 < radius) (_hr4 : radius < 4)
    (hx1 : 8 * (cc : ℚ) ≤ x) (hx2 : x < 8 * ((cc : ℚ) + 1))
    (hy1 : 8 * (rr : ℚ) ≤ y) (hy2 : y < 8 * ((rr : ℚ) + 1)) :
    m.can_move_to x y radius = false := by
  simp only [CollisionMap.can_move_to]
  rw [Bool.eq_false_iff]
  intro hall
  rw [List.all_eq_true] at hall
  have hcc : cc ∈ intRange ⌊(x - radius) / 8⌋ ⌊(x + radius) / 8⌋ := by
    rw [mem_intRange]
    constructor
    · have h2 : ⌊(x - radius) / 8⌋ < cc + 1 := by
        rw [Int.floor_lt]
        push_cast
        rw [div_lt_iff₀ (by norm_num : (0:ℚ) < 8)]
        linarith
      omega
    · rw [Int.le_floor, le_div_iff₀ (by norm_num : (0:ℚ) < 8)]
      linarith
  have hrr : rr ∈ intRange ⌊(y - radius) / 8⌋ ⌊(y + radius) / 8⌋ := by
    rw [mem_intRange]
    constructor
    · have h2 : ⌊(y - radius) / 8⌋ < rr + 1 := by
        rw [Int.floor_lt]
        push_cast
        rw [div_lt_iff₀ (by norm_num : (0:ℚ) < 8)]
        linarith
      omega
    · rw [Int.le_floor, le_div_iff₀ (by norm_num : (0:ℚ) < 8)]
      linarith
  have h1 := hall cc hcc
  rw [List.all_eq_true] at h1
  have h2 := h1 rr hrr
  rw [if_pos hocc, clampQ_eq_self x _ _ hx1 hx2,
    clampQ_eq_self y _ _ hy1 hy2] at h2
  have hcond : (x - x) ^ 2 + (y - y) ^ 2 < radius ^ 2 := by
    have hp : (0:ℚ) < radius ^ 2 := pow_pos hr0 2
    simpa using hp
  rw [if_pos hcond] at h2
  exact Bool.false_ne_true h2

/-- C9 witness: the theorem at the one-cell map X, disc center at the
cell's middle point and radius 2. -/
theorem can_move_to_rejects_inside_occupied_cell_witness :
    (buildCollisionMap [str "X"]).can_move_to 4 4 2 = false :=
  can_move_to_rejects_inside_occupied_cell (buildCollisionMap [str "X"])
    0 0 4 4 2 (by decide) (by norm_num) (by norm_num) (by norm_num)
    (by norm_num) (by norm_num) (by norm_num)

/-- C10: for every script in which no executed line's first token is
savecvars or do_damage, the actor-threading dispatcher run with no actor
produces the same outputs, final stats, final registry and quit flag as
the stats-and-cvar-only dispatcher of script.rs, with the actor still
absent. -/
theorem process_script_variants_agree (s : Str) (st : PlayerStats)
    (cv : CVarRegistry) (h : noActorCmd s = true) :
    process_script_with_actor s st cv none =
      ⟨(process_script s st cv).outputs, (process_script s st cv).stats,
       (process_script s st cv).cvars, none, (process_script s st cv).quit⟩ := by
  apply processLinesActor_eq
  intro l hm
  rw [noActorCmd] at h
  exact List.all_eq_true.mp h l hm

/-- C10 witness: the theorem at a concrete two-line script with one
add_gold line and one unknown-command line. -/
theorem process_script_variants_agree_witness :
    process_script_with_actor (str "add_gold 1\nfoo") defaultStats [] none =
      ⟨(process_script (str "add_gold 1\nfoo") defaultStats []).outputs,
       (process_script (str "add_gold 1\nfoo") defaultStats []).stats,
       (process_script (str "add_gold 1\nfoo") defaultStats []).cvars,
       none,
       (process_script (str "add_gold 1\nfoo") defaultStats []).quit⟩ :=
  process_script_variants_agree _ defaultStats [] (by decide)
